import Mathlib

/-!
A shallow embedding of the Spelling-Bee solver (`src/game.rs`, `src/main.rs`)
and proofs about its evaluator, puzzle normalization, letter indexes and the
four solving strategies.

Words are modelled as their character sequences (the dictionary is
all-uppercase ASCII, so Rust's byte length coincides with the character
count), hash sets as lists-with-set-membership or `Finset`s, and hash maps
as functions into `Option`.
-/

set_option autoImplicit false
set_option maxRecDepth 4000

namespace SpellingBee

/-- Rust `type Letter = char;`. -/
abbrev Letter := Char

/-- Rust `type Word = String;`, modelled as the list of its characters. -/
abbrev Word := List Char

/-- Rust `type Points = usize;`. -/
abbrev Points := Nat

/-- Rust `struct Game`: the raw puzzle as supplied by the caller. -/
structure Game where
  center_letter : Letter
  non_center_letters : List Letter

/-- Rust `struct GameProcessed`: the validated puzzle, whose non-center
letters have been collected into a set. -/
structure GameProcessed where
  center_letter : Letter
  non_center_letters : Finset Letter

/-- Rust `GameProcessed::letter_count`: `non_center_letters.len() + 1`. -/
def GameProcessed.letter_count (game : GameProcessed) : Nat :=
  game.non_center_letters.card + 1

/-- Rust `impl TryFrom<&Game> for GameProcessed`: `ensure!` that no
non-center letter equals the center letter, then collect the non-center
letters into a set. -/
def GameProcessed.tryFrom (game : Game) : Except String GameProcessed :=
  if (game.non_center_letters.find? (fun letter => letter == game.center_letter)).isNone then
    .ok { center_letter := game.center_letter,
          non_center_letters := game.non_center_letters.toFinset }
  else
    .error ("center letter may not be part of non center letters")

/-- Rust `enum GuessingError`. -/
inductive GuessingError where
  | TooShort
  | UnknownWord
  | DisallowedLetter (letter : Letter)
  | MissingCenterLetter
  deriving DecidableEq

/-- Rust `struct Dictionary`: its `HashSet<Word>` is modelled as a list, with
set semantics given by list membership. -/
structure Dictionary where
  words : List Word

/-- The letter scan inside `Guess::eval_points`: walk the guessed word in
order; a center letter is recorded and counted, a non-center permitted
letter is recorded, and the first disallowed letter aborts with
`DisallowedLetter`.  Returns the center-letter count and the set of distinct
permitted letters seen (`guessed_letters`). -/
def scanLetters (game : GameProcessed) :
    List Letter → Nat → Finset Letter → Except GuessingError (Nat × Finset Letter)
  | [], center_letter_count, guessed_letters =>
    .ok (center_letter_count, guessed_letters)
  | c :: rest, center_letter_count, guessed_letters =>
    if c = game.center_letter then
      scanLetters game rest (center_letter_count + 1) (insert c guessed_letters)
    else if c ∈ game.non_center_letters then
      scanLetters game rest center_letter_count (insert c guessed_letters)
    else
      .error (.DisallowedLetter c)

/-- Rust `Guess::eval_points`, rule for rule: reject words shorter than 4,
then words not in the dictionary, then the letter scan (first disallowed
letter), then a missing center letter; otherwise score
`1 + (len - 4) + (is_pangram ? 7 : 0)` where `is_pangram` compares the
distinct guessed letters against `letter_count`. -/
def eval_points (game : GameProcessed) (dict : Dictionary) (guessed_word : Word) :
    Except GuessingError Points :=
  if guessed_word.length < 4 then
    .error .TooShort
  else if guessed_word ∉ dict.words then
    .error .UnknownWord
  else
    match scanLetters game guessed_word 0 ∅ with
    | .error e => .error e
    | .ok (center_letter_count, guessed_letters) =>
      if center_letter_count = 0 then
        .error .MissingCenterLetter
      else
        let is_pangram := game.letter_count = guessed_letters.card
        .ok (1 + (guessed_word.length - 4) + (if is_pangram then 7 else 0))

/-- The closure shared by every strategy's `solve`:
`Guess::new(word).eval_points(game, dict).ok().map(|points| (word, points))`. -/
def guessPoints (game : GameProcessed) (dict : Dictionary) (word : Word) :
    Option (Word × Points) :=
  (eval_points game dict word).toOption.map (fun points => (word, points))

/-- Rust `BruteForce::solve`: filter-map the evaluator over the whole
dictionary; the resulting map is its list of (word, points) entries. -/
def bruteForceSolve (dict : Dictionary) (game : GameProcessed) :
    List (Word × Points) :=
  dict.words.filterMap (guessPoints game dict)

/-- Rust `ParallelBruteForce::solve`: rayon splits the dictionary into
per-worker chunks, each chunk is filter-mapped as in the brute force, and the
per-chunk results are merged.  The split is a parameter; theorems assume only
that the chunks reassemble to the word list up to permutation. -/
def parallelBruteForceSolve (split : List Word → List (List Word))
    (dict : Dictionary) (game : GameProcessed) : List (Word × Points) :=
  ((split dict.words).map (fun chunk => chunk.filterMap (guessPoints game dict))).flatten

/-- One inner-loop step of `LetterMap::new`:
`letter_to_words.entry(letter).or_insert_with(HashSet::new).insert(word)`.
The hash map is a function into `Option`, an absent entry being `none`; the
hash-set bucket is a duplicate-free list, its `insert` being `List.insert`
(a no-op when the word is already present). -/
def letterMapInsert (word : Word) (letter : Letter)
    (m : Letter → Option (List Word)) : Letter → Option (List Word) :=
  fun l => if l = letter then some (List.insert word ((m letter).getD [])) else m l

/-- The inner loop of `LetterMap::new`: insert `word` into the bucket of each
of its letters in order. -/
def letterMapAddWord (word : Word) (m : Letter → Option (List Word)) :
    Letter → Option (List Word) :=
  word.foldl (fun m letter => letterMapInsert word letter m) m

/-- Rust `LetterMap::new`: fold every dictionary word into the
letter-to-words map, starting from the empty map. -/
def letterMapBuild (words : List Word) : Letter → Option (List Word) :=
  words.foldl (fun m word => letterMapAddWord word m) (fun _ => none)

/-- Rust `LetterMap::solve`: look up the center-letter bucket
(`get(..).into_iter().flatten()` iterates nothing when the bucket is absent)
and filter-map the evaluator over it. -/
def letterMapSolve (dict : Dictionary) (game : GameProcessed) :
    List (Word × Points) :=
  match letterMapBuild dict.words game.center_letter with
  | none => []
  | some bucket => bucket.filterMap (guessPoints game dict)

/-- One inner-loop step of `ParallelLetterMap::new`:
`letter_to_words.entry(letter).or_insert_with(Vec::new).push(word)` — the
bucket is a vector and `push` appends unconditionally. -/
def parallelLetterMapInsert (word : Word) (letter : Letter)
    (m : Letter → Option (List Word)) : Letter → Option (List Word) :=
  fun l => if l = letter then some (((m letter).getD []) ++ [word]) else m l

/-- The inner loop of `ParallelLetterMap::new`: push `word` onto the bucket
of each of its letters in order. -/
def parallelLetterMapAddWord (word : Word) (m : Letter → Option (List Word)) :
    Letter → Option (List Word) :=
  word.foldl (fun m letter => parallelLetterMapInsert word letter m) m

/-- Rust `ParallelLetterMap::new`: fold every dictionary word into the
letter-to-word-vector map, starting from the empty map. -/
def parallelLetterMapBuild (words : List Word) : Letter → Option (List Word) :=
  words.foldl (fun m word => parallelLetterMapAddWord word m) (fun _ => none)

/-- Rust `ParallelLetterMap::solve`: an absent center-letter bucket yields the
empty map (`None => HashMap::new()`); otherwise the bucket vector is split
into per-worker chunks, each filter-mapped and merged, as in the parallel
brute force. -/
def parallelLetterMapSolve (split : List Word → List (List Word))
    (dict : Dictionary) (game : GameProcessed) : List (Word × Points) :=
  match parallelLetterMapBuild dict.words game.center_letter with
  | none => []
  | some words =>
    ((split words).map (fun chunk => chunk.filterMap (guessPoints game dict))).flatten

/-- Rust `GameSolver::solve`: normalize the raw game with `try_into()?` and
hand the processed puzzle to the strategy; a normalization failure is
propagated before the strategy runs. -/
def gameSolverSolve (strategy : GameProcessed → List (Word × Points))
    (game : Game) : Except String (List (Word × Points)) :=
  match GameProcessed.tryFrom game with
  | .error e => .error e
  | .ok processed => .ok (strategy processed)

/-- Rust `str::trim` on a character list: drop whitespace from both ends. -/
def strTrim (line : List Char) : List Char :=
  ((line.dropWhile Char.isWhitespace).reverse.dropWhile Char.isWhitespace).reverse

/-- The pure line-filtering part of `Dictionary::scrape` (the network fetch is
outside the core): keep the non-empty all-uppercase lines of length at least
4 and trim them.  Rust's `char::is_uppercase` is modelled by `Char.isUpper`;
the word list is ASCII. -/
def scrapeWords (lines : List (List Char)) : List Word :=
  ((lines.filter (fun line => !line.isEmpty && line.all Char.isUpper)).filter
      (fun line => line.length ≥ 4)).map strTrim

/-- The letter-legality test of the scan, as a Boolean on single letters: a
letter is disallowed when it is neither the center letter nor a non-center
letter.  Used to phrase which letter the scan aborts on. -/
def disallowedLetter (game : GameProcessed) (c : Letter) : Bool :=
  !(decide (c = game.center_letter) || decide (c ∈ game.non_center_letters))

/-! ### Characterizations of the letter scan -/

lemma scanLetters_of_allowed (game : GameProcessed) (w : List Letter)
    (cnt : Nat) (gl : Finset Letter)
    (h : ∀ c ∈ w, c = game.center_letter ∨ c ∈ game.non_center_letters) :
    scanLetters game w cnt gl = .ok (cnt + w.count game.center_letter, gl ∪ w.toFinset) := by
  induction w generalizing cnt gl with
  | nil => simp [scanLetters]
  | cons c rest ih =>
    rcases h c (List.mem_cons_self c rest) with hc | hm
    · rw [scanLetters, if_pos hc,
        ih _ _ (fun d hd => h d (List.mem_cons_of_mem c hd))]
      subst hc
      simp [List.count_cons, Finset.insert_union, Finset.union_insert]
      omega
    · by_cases hc : c = game.center_letter
      · rw [scanLetters, if_pos hc,
          ih _ _ (fun d hd => h d (List.mem_cons_of_mem c hd))]
        subst hc
        simp [List.count_cons, Finset.insert_union, Finset.union_insert]
        omega
      · rw [scanLetters, if_neg hc, if_pos hm,
          ih _ _ (fun d hd => h d (List.mem_cons_of_mem c hd))]
        have hc' : ¬(game.center_letter = c) := fun h => hc h.symm
        simp [List.count_cons, hc', Finset.insert_union, Finset.union_insert]

lemma scanLetters_ok (game : GameProcessed) (w : List Letter) (cnt : Nat)
    (gl : Finset Letter) (r : Nat × Finset Letter)
    (h : scanLetters game w cnt gl = .ok r) :
    (∀ c ∈ w, c = game.center_letter ∨ c ∈ game.non_center_letters) ∧
      r.1 = cnt + w.count game.center_letter ∧ r.2 = gl ∪ w.toFinset := by
  induction w generalizing cnt gl with
  | nil =>
    simp [scanLetters] at h
    simp [← h]
  | cons c rest ih =>
    by_cases hc : c = game.center_letter
    · rw [scanLetters, if_pos hc] at h
      obtain ⟨hall, h1, h2⟩ := ih _ _ h
      refine ⟨fun d hd => ?_, ?_, ?_⟩
      · rcases List.mem_cons.mp hd with rfl | hd
        · exact Or.inl hc
        · exact hall d hd
      · subst hc; simp [h1, List.count_cons]; omega
      · subst hc; simp [h2, Finset.insert_union, Finset.union_insert]
    · by_cases hm : c ∈ game.non_center_letters
      · rw [scanLetters, if_neg hc, if_pos hm] at h
        obtain ⟨hall, h1, h2⟩ := ih _ _ h
        have hc' : ¬(game.center_letter = c) := fun h => hc h.symm
        refine ⟨fun d hd => ?_, ?_, ?_⟩
        · rcases List.mem_cons.mp hd with rfl | hd
          · exact Or.inr hm
          · exact hall d hd
        · simp [h1, List.count_cons, hc']
        · simp [h2, Finset.insert_union, Finset.union_insert]
      · rw [scanLetters, if_neg hc, if_neg hm] at h
        exact absurd h (by simp)

lemma scanLetters_error_iff (game : GameProcessed) (w : List Letter)
    (cnt : Nat) (gl : Finset Letter) (e : GuessingError) :
    scanLetters game w cnt gl = .error e ↔
      ∃ c, w.find? (disallowedLetter game) = some c ∧ e = .DisallowedLetter c := by
  induction w generalizing cnt gl with
  | nil => simp [scanLetters]
  | cons c rest ih =>
    by_cases hc : c = game.center_letter
    · have hd : disallowedLetter game c = false := by simp [disallowedLetter, hc]
      rw [scanLetters, if_pos hc, List.find?_cons_of_neg _ (by simp [hd])]
      exact ih _ _
    · by_cases hm : c ∈ game.non_center_letters
      · have hd : disallowedLetter game c = false := by simp [disallowedLetter, hm]
        rw [scanLetters, if_neg hc, if_pos hm, List.find?_cons_of_neg _ (by simp [hd])]
        exact ih _ _
      · have hd : disallowedLetter game c = true := by simp [disallowedLetter, hc, hm]
        rw [scanLetters, if_neg hc, if_neg hm, List.find?_cons_of_pos _ hd]
        simp [eq_comm]

/-! ### Characterizations of the evaluator -/

lemma eval_points_ok_iff (game : GameProcessed) (dict : Dictionary) (w : Word)
    (p : Points) :
    eval_points game dict w = .ok p ↔
      (4 ≤ w.length ∧ w ∈ dict.words ∧
        (∀ c ∈ w, c = game.center_letter ∨ c ∈ game.non_center_letters) ∧
        game.center_letter ∈ w ∧
        p = 1 + (w.length - 4) +
          (if game.letter_count = w.toFinset.card then 7 else 0)) := by
  unfold eval_points
  by_cases h4 : w.length < 4
  · simp only [if_pos h4]
    constructor
    · intro h; exact absurd h (by simp)
    · rintro ⟨hle, -⟩; omega
  · simp only [if_neg h4]
    by_cases hd : w ∈ dict.words
    · rw [if_neg (by simpa using hd)]
      by_cases hall : ∀ c ∈ w, c = game.center_letter ∨ c ∈ game.non_center_letters
      · rw [scanLetters_of_allowed game w 0 ∅ hall]
        dsimp only
        by_cases hcnt : 0 + w.count game.center_letter = 0
        · rw [if_pos hcnt]
          have hnc : game.center_letter ∉ w := by
            rw [← List.count_eq_zero]; omega
          constructor
          · intro h; exact absurd h (by simp)
          · rintro ⟨-, -, -, hmem, -⟩; exact absurd hmem hnc
        · rw [if_neg hcnt]
          have hmem : game.center_letter ∈ w := by
            rw [← List.count_pos_iff]; omega
          simp only [Except.ok.injEq, Finset.empty_union]
          constructor
          · intro h
            exact ⟨by omega, hd, hall, hmem, h.symm⟩
          · rintro ⟨-, -, -, -, h⟩; exact h.symm
      · have hsome : ∃ c, w.find? (disallowedLetter game) = some c := by
          rcases hfind : w.find? (disallowedLetter game) with - | c
          · rw [List.find?_eq_none] at hfind
            refine absurd (fun c hc => ?_) hall
            have := hfind c hc
            simp [disallowedLetter] at this
            exact (em (c = game.center_letter)).imp id (fun h => this h)
          · exact ⟨c, rfl⟩
        obtain ⟨c, hfind⟩ := hsome
        rw [(scanLetters_error_iff game w 0 ∅ (.DisallowedLetter c)).mpr ⟨c, hfind, rfl⟩]
        dsimp only
        constructor
        · intro h; exact absurd h (by simp)
        · rintro ⟨-, -, h, -⟩; exact absurd h hall
    · rw [if_pos (by simpa using hd)]
      constructor
      · intro h; exact absurd h (by simp)
      · rintro ⟨-, hmem, -⟩; exact absurd hmem hd

lemma eval_points_eq_spec (game : GameProcessed) (dict : Dictionary) (w : Word) :
    eval_points game dict w =
      if w.length < 4 then .error .TooShort
      else if w ∉ dict.words then .error .UnknownWord
      else
        match w.find? (disallowedLetter game) with
        | some c => .error (.DisallowedLetter c)
        | none =>
          if game.center_letter ∉ w then .error .MissingCenterLetter
          else .ok (1 + (w.length - 4) +
            (if game.letter_count = w.toFinset.card then 7 else 0)) := by
  unfold eval_points
  by_cases h4 : w.length < 4
  · simp only [if_pos h4]
  · simp only [if_neg h4]
    by_cases hd : w ∈ dict.words
    · rw [if_neg (by simpa using hd), if_neg (by simpa using hd)]
      by_cases hall : ∀ c ∈ w, c = game.center_letter ∨ c ∈ game.non_center_letters
      · have hfind : w.find? (disallowedLetter game) = none := by
          rw [List.find?_eq_none]
          intro c hc
          rcases hall c hc with h | h <;> simp [disallowedLetter, h]
        rw [scanLetters_of_allowed game w 0 ∅ hall, hfind]
        dsimp only
        rw [Nat.zero_add, Finset.empty_union]
        by_cases hc : game.center_letter ∈ w
        · rw [if_neg (show ¬w.count game.center_letter = 0 from
              fun h0 => (List.count_eq_zero.mp h0) hc),
            if_neg (show ¬game.center_letter ∉ w from not_not_intro hc)]
        · rw [if_pos (show w.count game.center_letter = 0 from
              List.count_eq_zero.mpr hc),
            if_pos (show game.center_letter ∉ w from hc)]
      · have hsome : ∃ c, w.find? (disallowedLetter game) = some c := by
          rcases hfind : w.find? (disallowedLetter game) with - | c
          · rw [List.find?_eq_none] at hfind
            refine absurd (fun c hc => ?_) hall
            have := hfind c hc
            simp [disallowedLetter] at this
            exact (em (c = game.center_letter)).imp id (fun h => this h)
          · exact ⟨c, rfl⟩
        obtain ⟨c, hfind⟩ := hsome
        rw [(scanLetters_error_iff game w 0 ∅ (.DisallowedLetter c)).mpr ⟨c, hfind, rfl⟩,
          hfind]
    · rw [if_pos (by simpa using hd), if_pos (by simpa using hd)]

/-! ### Membership in strategy results -/

lemma guessPoints_eq_some_iff (game : GameProcessed) (dict : Dictionary)
    (a w : Word) (p : Points) :
    guessPoints game dict a = some (w, p) ↔
      (a = w ∧ eval_points game dict w = .ok p) := by
  unfold guessPoints
  cases hev : eval_points game dict a with
  | error e =>
    simp only [hev, Except.toOption]
    constructor
    · intro h; exact absurd h (by simp)
    · rintro ⟨rfl, hok⟩; rw [hev] at hok; exact absurd hok (by simp)
  | ok q =>
    simp only [hev, Except.toOption]
    constructor
    · intro h
      obtain ⟨rfl, rfl⟩ := Prod.mk.injEq .. |>.mp (Option.some.inj h)
      exact ⟨rfl, hev⟩
    · rintro ⟨rfl, hok⟩
      rw [hev] at hok
      rw [Except.ok.inj hok]
      rfl

lemma mem_filterMap_guessPoints (game : GameProcessed) (dict : Dictionary)
    (l : List Word) (w : Word) (p : Points) :
    (w, p) ∈ l.filterMap (guessPoints game dict) ↔
      (w ∈ l ∧ eval_points game dict w = .ok p) := by
  rw [List.mem_filterMap]
  constructor
  · rintro ⟨a, ha, hg⟩
    obtain ⟨rfl, hok⟩ := (guessPoints_eq_some_iff game dict a w p).mp hg
    exact ⟨ha, hok⟩
  · rintro ⟨hw, hok⟩
    exact ⟨w, hw, (guessPoints_eq_some_iff game dict w w p).mpr ⟨rfl, hok⟩⟩

lemma flatten_map_filterMap {α β : Type} (g : α → Option β)
    (chunks : List (List α)) :
    (chunks.map (fun chunk => chunk.filterMap g)).flatten =
      chunks.flatten.filterMap g := by
  induction chunks with
  | nil => rfl
  | cons c cs ih =>
    rw [List.map_cons, List.flatten_cons, ih, List.flatten_cons,
      List.filterMap_append]

lemma mem_bruteForceSolve (dict : Dictionary) (game : GameProcessed)
    (w : Word) (p : Points) :
    (w, p) ∈ bruteForceSolve dict game ↔
      (w ∈ dict.words ∧ eval_points game dict w = .ok p) :=
  mem_filterMap_guessPoints game dict dict.words w p

lemma mem_parallelBruteForceSolve (split : List Word → List (List Word))
    (hsplit : ∀ l : List Word, (split l).flatten.Perm l)
    (dict : Dictionary) (game : GameProcessed) (w : Word) (p : Points) :
    (w, p) ∈ parallelBruteForceSolve split dict game ↔
      (w ∈ dict.words ∧ eval_points game dict w = .ok p) := by
  unfold parallelBruteForceSolve
  rw [flatten_map_filterMap,
    ((hsplit dict.words).filterMap (guessPoints game dict)).mem_iff]
  exact mem_filterMap_guessPoints game dict dict.words w p

/-! ### The letter indexes -/

lemma mem_letterMapFold (word : Word) (letters : List Letter)
    (m : Letter → Option (List Word)) (l : Letter) (w : Word) :
    (w ∈ ((letters.foldl (fun m letter => letterMapInsert word letter m) m) l).getD [])
      ↔ (w ∈ ((m l).getD []) ∨ (w = word ∧ l ∈ letters)) := by
  induction letters generalizing m with
  | nil => simp
  | cons a rest ih =>
    rw [List.foldl_cons, ih]
    by_cases hl : l = a
    · subst hl
      simp [letterMapInsert, List.mem_insert_iff, List.mem_cons]
      tauto
    · simp [letterMapInsert, hl, List.mem_cons]

lemma mem_letterMapAddWord (word : Word) (m : Letter → Option (List Word))
    (l : Letter) (w : Word) :
    w ∈ ((letterMapAddWord word m l).getD []) ↔
      (w ∈ ((m l).getD []) ∨ (w = word ∧ l ∈ word)) :=
  mem_letterMapFold word word m l w

lemma mem_letterMapWordsFold (words : List Word)
    (m : Letter → Option (List Word)) (l : Letter) (w : Word) :
    (w ∈ ((words.foldl (fun m word => letterMapAddWord word m) m) l).getD [])
      ↔ (w ∈ ((m l).getD []) ∨ (w ∈ words ∧ l ∈ w)) := by
  induction words generalizing m with
  | nil => simp
  | cons v rest ih =>
    rw [List.foldl_cons, ih, mem_letterMapAddWord]
    simp only [List.mem_cons]
    constructor
    · rintro ((hm | ⟨rfl, hl⟩) | ⟨hr, hl⟩)
      · exact Or.inl hm
      · exact Or.inr ⟨Or.inl rfl, hl⟩
      · exact Or.inr ⟨Or.inr hr, hl⟩
    · rintro (hm | ⟨(rfl | hr), hl⟩)
      · exact Or.inl (Or.inl hm)
      · exact Or.inl (Or.inr ⟨rfl, hl⟩)
      · exact Or.inr ⟨hr, hl⟩

lemma mem_letterMapBuild (words : List Word) (l : Letter) (w : Word) :
    w ∈ ((letterMapBuild words l).getD []) ↔ (w ∈ words ∧ l ∈ w) := by
  unfold letterMapBuild
  rw [mem_letterMapWordsFold]
  simp

lemma count_parallelLetterMapFold (word : Word) (letters : List Letter)
    (m : Letter → Option (List Word)) (l : Letter) (w : Word) :
    (((letters.foldl (fun m letter => parallelLetterMapInsert word letter m) m) l).getD []).count w
      = (((m l).getD []).count w) + (if w = word then letters.count l else 0) := by
  induction letters generalizing m with
  | nil => simp
  | cons a rest ih =>
    rw [List.foldl_cons, ih]
    by_cases hl : l = a <;> by_cases hw : w = word
    · subst hl; subst hw
      simp [parallelLetterMapInsert, List.count_append, List.count_cons]
      omega
    · subst hl
      simp [parallelLetterMapInsert, List.count_append, List.count_cons, hw]
    · subst hw
      simp [parallelLetterMapInsert, hl, List.count_cons,
        fun h : a = l => hl h.symm]
    · simp [parallelLetterMapInsert, hl, hw, List.count_cons,
        fun h : a = l => hl h.symm]

lemma count_parallelLetterMapAddWord (word : Word)
    (m : Letter → Option (List Word)) (l : Letter) (w : Word) :
    ((parallelLetterMapAddWord word m l).getD []).count w =
      (((m l).getD []).count w) + (if w = word then word.count l else 0) :=
  count_parallelLetterMapFold word word m l w

lemma count_parallelLetterMapWordsFold (words : List Word)
    (m : Letter → Option (List Word)) (l : Letter) (w : Word) :
    (((words.foldl (fun m word => parallelLetterMapAddWord word m) m) l).getD []).count w
      = (((m l).getD []).count w) + (words.count w) * (w.count l) := by
  induction words generalizing m with
  | nil => simp
  | cons v rest ih =>
    rw [List.foldl_cons, ih, count_parallelLetterMapAddWord, List.count_cons]
    by_cases hw : w = v
    · subst hw
      simp
      ring
    · simp [hw]
      exact Or.inl (fun h => hw h.symm)

lemma count_parallelLetterMapBuild (words : List Word) (l : Letter) (w : Word) :
    ((parallelLetterMapBuild words l).getD []).count w =
      (words.count w) * (w.count l) := by
  unfold parallelLetterMapBuild
  rw [count_parallelLetterMapWordsFold]
  simp

lemma mem_parallelLetterMapBuild (words : List Word) (l : Letter) (w : Word) :
    w ∈ ((parallelLetterMapBuild words l).getD []) ↔ (w ∈ words ∧ l ∈ w) := by
  rw [← List.count_pos_iff, count_parallelLetterMapBuild, Nat.pos_iff_ne_zero,
    Ne, Nat.mul_eq_zero]
  rw [not_or, ← Ne, ← Ne, ← Nat.pos_iff_ne_zero, ← Nat.pos_iff_ne_zero,
    List.count_pos_iff, List.count_pos_iff]

lemma nodup_letterMapFold (word : Word) (letters : List Letter)
    (m : Letter → Option (List Word))
    (hm : ∀ l, (((m l).getD []) : List Word).Nodup) :
    ∀ l, (((letters.foldl (fun m letter => letterMapInsert word letter m) m) l).getD []).Nodup := by
  induction letters generalizing m with
  | nil => exact hm
  | cons a rest ih =>
    rw [List.foldl_cons]
    refine ih _ (fun l => ?_)
    unfold letterMapInsert
    by_cases hl : l = a
    · rw [if_pos hl, Option.getD_some]
      by_cases hw : word ∈ (m a).getD []
      · rw [List.insert_of_mem hw]; exact hm a
      · rw [List.insert_of_not_mem hw]
        exact List.nodup_cons.mpr ⟨hw, hm a⟩
    · rw [if_neg hl]
      exact hm l

lemma nodup_letterMapBuild (words : List Word) (l : Letter) :
    ((letterMapBuild words l).getD []).Nodup := by
  unfold letterMapBuild
  have key : ∀ m : Letter → Option (List Word),
      (∀ l, (((m l).getD []) : List Word).Nodup) →
      ∀ l, (((words.foldl (fun m word => letterMapAddWord word m) m) l).getD []).Nodup := by
    induction words with
    | nil => intro m hm; exact hm
    | cons v rest ih =>
      intro m hm
      rw [List.foldl_cons]
      exact ih _ (nodup_letterMapFold v v m hm)
  exact key _ (fun _ => by simp) l

lemma letterMapFold_apply_of_not_mem (word : Word) (letters : List Letter)
    (m : Letter → Option (List Word)) (l : Letter) (hl : l ∉ letters) :
    (letters.foldl (fun m letter => letterMapInsert word letter m) m) l = m l := by
  induction letters generalizing m with
  | nil => rfl
  | cons a rest ih =>
    rw [List.foldl_cons, ih _ (fun h => hl (List.mem_cons_of_mem a h))]
    unfold letterMapInsert
    rw [if_neg (fun h : l = a => hl (by rw [h]; exact List.mem_cons_self a rest))]

lemma letterMapBuild_apply_of_not_mem (words : List Word) (l : Letter)
    (h : ∀ w ∈ words, l ∉ w) : letterMapBuild words l = none := by
  unfold letterMapBuild
  have : ∀ m : Letter → Option (List Word),
      (words.foldl (fun m word => letterMapAddWord word m) m) l = m l := by
    induction words with
    | nil => intro m; rfl
    | cons v rest ih =>
      intro m
      rw [List.foldl_cons, ih (fun w hw => h w (List.mem_cons_of_mem v hw))]
      exact letterMapFold_apply_of_not_mem v v m l (h v (List.mem_cons_self v rest))
  exact this _

lemma parallelLetterMapFold_apply_of_not_mem (word : Word) (letters : List Letter)
    (m : Letter → Option (List Word)) (l : Letter) (hl : l ∉ letters) :
    (letters.foldl (fun m letter => parallelLetterMapInsert word letter m) m) l = m l := by
  induction letters generalizing m with
  | nil => rfl
  | cons a rest ih =>
    rw [List.foldl_cons, ih _ (fun h => hl (List.mem_cons_of_mem a h))]
    unfold parallelLetterMapInsert
    rw [if_neg (fun h : l = a => hl (by rw [h]; exact List.mem_cons_self a rest))]

lemma parallelLetterMapBuild_apply_of_not_mem (words : List Word) (l : Letter)
    (h : ∀ w ∈ words, l ∉ w) : parallelLetterMapBuild words l = none := by
  unfold parallelLetterMapBuild
  have : ∀ m : Letter → Option (List Word),
      (words.foldl (fun m word => parallelLetterMapAddWord word m) m) l = m l := by
    induction words with
    | nil => intro m; rfl
    | cons v rest ih =>
      intro m
      rw [List.foldl_cons, ih (fun w hw => h w (List.mem_cons_of_mem v hw))]
      exact parallelLetterMapFold_apply_of_not_mem v v m l (h v (List.mem_cons_self v rest))
  exact this _

lemma mem_letterMapSolve (dict : Dictionary) (game : GameProcessed)
    (w : Word) (p : Points) :
    (w, p) ∈ letterMapSolve dict game ↔
      (w ∈ dict.words ∧ eval_points game dict w = .ok p) := by
  unfold letterMapSolve
  cases hb : letterMapBuild dict.words game.center_letter with
  | none =>
    simp only [List.not_mem_nil, false_iff, not_and]
    intro hw hok
    have hc : game.center_letter ∈ w :=
      ((eval_points_ok_iff game dict w p).mp hok).2.2.2.1
    have := (mem_letterMapBuild dict.words game.center_letter w).mpr ⟨hw, hc⟩
    rw [hb] at this
    exact absurd this (by simp)
  | some bucket =>
    rw [mem_filterMap_guessPoints]
    have hbucket : w ∈ bucket ↔ (w ∈ dict.words ∧ game.center_letter ∈ w) := by
      rw [← mem_letterMapBuild dict.words game.center_letter w, hb, Option.getD_some]
    constructor
    · rintro ⟨hw, hok⟩
      exact ⟨(hbucket.mp hw).1, hok⟩
    · rintro ⟨hw, hok⟩
      have hc : game.center_letter ∈ w :=
        ((eval_points_ok_iff game dict w p).mp hok).2.2.2.1
      exact ⟨hbucket.mpr ⟨hw, hc⟩, hok⟩

lemma mem_parallelLetterMapSolve (split : List Word → List (List Word))
    (hsplit : ∀ l : List Word, (split l).flatten.Perm l)
    (dict : Dictionary) (game : GameProcessed) (w : Word) (p : Points) :
    (w, p) ∈ parallelLetterMapSolve split dict game ↔
      (w ∈ dict.words ∧ eval_points game dict w = .ok p) := by
  unfold parallelLetterMapSolve
  cases hb : parallelLetterMapBuild dict.words game.center_letter with
  | none =>
    simp only [List.not_mem_nil, false_iff, not_and]
    intro hw hok
    have hc : game.center_letter ∈ w :=
      ((eval_points_ok_iff game dict w p).mp hok).2.2.2.1
    have := (mem_parallelLetterMapBuild dict.words game.center_letter w).mpr ⟨hw, hc⟩
    rw [hb] at this
    exact absurd this (by simp)
  | some bucket =>
    dsimp only
    rw [flatten_map_filterMap,
      ((hsplit bucket).filterMap (guessPoints game dict)).mem_iff,
      mem_filterMap_guessPoints]
    have hbucket : w ∈ bucket ↔ (w ∈ dict.words ∧ game.center_letter ∈ w) := by
      rw [← mem_parallelLetterMapBuild dict.words game.center_letter w, hb,
        Option.getD_some]
    constructor
    · rintro ⟨hw, hok⟩
      exact ⟨(hbucket.mp hw).1, hok⟩
    · rintro ⟨hw, hok⟩
      have hc : game.center_letter ∈ w :=
        ((eval_points_ok_iff game dict w p).mp hok).2.2.2.1
      exact ⟨hbucket.mpr ⟨hw, hc⟩, hok⟩

/-! ### Per-constructor characterizations of rejection -/

lemma disallowedLetter_eq_true_iff (game : GameProcessed) (c : Letter) :
    disallowedLetter game c = true ↔
      ¬(c = game.center_letter ∨ c ∈ game.non_center_letters) := by
  simp [disallowedLetter, not_or]

lemma find?_disallowed_eq_none_iff (game : GameProcessed) (w : List Letter) :
    w.find? (disallowedLetter game) = none ↔
      ∀ c ∈ w, c = game.center_letter ∨ c ∈ game.non_center_letters := by
  rw [List.find?_eq_none]
  constructor
  · intro h c hc
    by_contra hno
    exact (h c hc) ((disallowedLetter_eq_true_iff game c).mpr hno)
  · intro hall c hc
    intro htrue
    exact (disallowedLetter_eq_true_iff game c).mp htrue (hall c hc)

lemma eval_TooShort_iff (game : GameProcessed) (dict : Dictionary) (w : Word) :
    eval_points game dict w = .error .TooShort ↔ w.length < 4 := by
  rw [eval_points_eq_spec]
  by_cases h4 : w.length < 4
  · simp [h4]
  · rw [if_neg h4]
    refine iff_of_false ?_ h4
    by_cases hd : w ∈ dict.words
    · rw [if_neg (by simpa using hd)]
      rcases hfind : w.find? (disallowedLetter game) with - | c
      · dsimp only
        by_cases hc : game.center_letter ∈ w
        · rw [if_neg (show ¬game.center_letter ∉ w from not_not_intro hc)]
          simp
        · rw [if_pos (show game.center_letter ∉ w from hc)]
          simp
      · simp
    · rw [if_pos (by simpa using hd)]
      simp

lemma eval_UnknownWord_iff (game : GameProcessed) (dict : Dictionary) (w : Word) :
    eval_points game dict w = .error .UnknownWord ↔
      (4 ≤ w.length ∧ w ∉ dict.words) := by
  rw [eval_points_eq_spec]
  by_cases h4 : w.length < 4
  · rw [if_pos h4]
    exact iff_of_false (by simp) (fun h => by omega)
  · rw [if_neg h4]
    by_cases hd : w ∈ dict.words
    · rw [if_neg (by simpa using hd)]
      refine iff_of_false ?_ (fun h => h.2 hd)
      rcases hfind : w.find? (disallowedLetter game) with - | c
      · dsimp only
        by_cases hc : game.center_letter ∈ w
        · rw [if_neg (show ¬game.center_letter ∉ w from not_not_intro hc)]
          simp
        · rw [if_pos (show game.center_letter ∉ w from hc)]
          simp
      · simp
    · rw [if_pos (by simpa using hd)]
      exact iff_of_true rfl ⟨by omega, hd⟩

lemma eval_DisallowedLetter_iff (game : GameProcessed) (dict : Dictionary)
    (w : Word) (c : Letter) :
    eval_points game dict w = .error (.DisallowedLetter c) ↔
      (4 ≤ w.length ∧ w ∈ dict.words ∧
        w.find? (disallowedLetter game) = some c) := by
  rw [eval_points_eq_spec]
  by_cases h4 : w.length < 4
  · rw [if_pos h4]
    exact iff_of_false (by simp) (fun h => by omega)
  · rw [if_neg h4]
    by_cases hd : w ∈ dict.words
    · rw [if_neg (by simpa using hd)]
      rcases hfind : w.find? (disallowedLetter game) with - | c0
      · dsimp only
        refine iff_of_false ?_ (fun h => by simp at h)
        by_cases hc : game.center_letter ∈ w
        · rw [if_neg (show ¬game.center_letter ∉ w from not_not_intro hc)]
          simp
        · rw [if_pos (show game.center_letter ∉ w from hc)]
          simp
      · simp only [Except.error.injEq, GuessingError.DisallowedLetter.injEq,
          Option.some.injEq]
        constructor
        · rintro rfl
          exact ⟨by omega, hd, rfl⟩
        · rintro ⟨-, -, rfl⟩
          rfl
    · rw [if_pos (by simpa using hd)]
      exact iff_of_false (by simp) (fun h => hd h.2.1)

lemma eval_MissingCenterLetter_iff (game : GameProcessed) (dict : Dictionary)
    (w : Word) :
    eval_points game dict w = .error .MissingCenterLetter ↔
      (4 ≤ w.length ∧ w ∈ dict.words ∧
        (∀ c ∈ w, c = game.center_letter ∨ c ∈ game.non_center_letters) ∧
        game.center_letter ∉ w) := by
  rw [eval_points_eq_spec]
  by_cases h4 : w.length < 4
  · rw [if_pos h4]
    exact iff_of_false (by simp) (fun h => by omega)
  · rw [if_neg h4]
    by_cases hd : w ∈ dict.words
    · rw [if_neg (by simpa using hd)]
      rcases hfind : w.find? (disallowedLetter game) with - | c0
      · dsimp only
        have hall := (find?_disallowed_eq_none_iff game w).mp hfind
        by_cases hc : game.center_letter ∈ w
        · rw [if_neg (show ¬game.center_letter ∉ w from not_not_intro hc)]
          exact iff_of_false (by simp) (fun h => h.2.2.2 hc)
        · rw [if_pos (show game.center_letter ∉ w from hc)]
          exact iff_of_true rfl ⟨by omega, hd, hall, hc⟩
      · have hc0w : c0 ∈ w := List.mem_of_find?_eq_some hfind
        have hc0 : disallowedLetter game c0 = true := List.find?_some hfind
        refine iff_of_false (by simp) (fun h => ?_)
        exact (disallowedLetter_eq_true_iff game c0).mp hc0 (h.2.2.1 c0 hc0w)
    · rw [if_pos (by simpa using hd)]
      exact iff_of_false (by simp) (fun h => hd h.2.1)

/-! ### Normalization and the scrape filter -/

lemma tryFrom_cond_iff (g : Game) :
    ((g.non_center_letters.find? (fun letter => letter == g.center_letter)).isNone = true)
      ↔ g.center_letter ∉ g.non_center_letters := by
  rw [Option.isNone_iff_eq_none, List.find?_eq_none]
  constructor
  · intro h hmem
    exact (h _ hmem) (by simp)
  · intro h c hc hbeq
    rw [beq_iff_eq] at hbeq
    subst hbeq
    exact h hc

lemma tryFrom_eq_error (g : Game) (h : g.center_letter ∈ g.non_center_letters) :
    GameProcessed.tryFrom g =
      .error ("center letter may not be part of non center letters") := by
  unfold GameProcessed.tryFrom
  rw [if_neg]
  intro hcond
  exact (tryFrom_cond_iff g).mp hcond h

lemma tryFrom_eq_ok (g : Game) (h : g.center_letter ∉ g.non_center_letters) :
    GameProcessed.tryFrom g =
      .ok { center_letter := g.center_letter,
            non_center_letters := g.non_center_letters.toFinset } := by
  unfold GameProcessed.tryFrom
  rw [if_pos ((tryFrom_cond_iff g).mpr h)]

lemma dropWhile_eq_self_of_forall {α : Type} (p : α → Bool) (l : List α)
    (h : ∀ c ∈ l, p c = false) : l.dropWhile p = l := by
  cases l with
  | nil => rfl
  | cons a as =>
    rw [List.dropWhile_cons, if_neg]
    simp [h a (List.mem_cons_self a as)]

lemma isWhitespace_eq_false_of_isUpper (c : Char) (h : c.isUpper = true) :
    c.isWhitespace = false := by
  simp only [Char.isUpper] at h
  simp only [Char.isWhitespace]
  obtain ⟨h1, h2⟩ := by simpa using h
  simp only [Bool.or_eq_false_iff, decide_eq_false_iff_not]
  refine ⟨⟨⟨?_, ?_⟩, ?_⟩, ?_⟩ <;> rintro rfl <;> revert h1 <;> decide

lemma strTrim_eq_self (line : List Char) (h : line.all Char.isUpper = true) :
    strTrim line = line := by
  have hup : ∀ c ∈ line, c.isUpper = true := by
    intro c hc
    exact List.all_eq_true.mp h c hc
  have hws : ∀ c ∈ line, c.isWhitespace = false :=
    fun c hc => isWhitespace_eq_false_of_isUpper c (hup c hc)
  unfold strTrim
  rw [dropWhile_eq_self_of_forall _ _ hws,
    dropWhile_eq_self_of_forall _ _ (fun c hc => hws c (List.mem_reverse.mp hc)),
    List.reverse_reverse]

lemma mem_scrapeWords_iff (lines : List (List Char)) (line : List Char) :
    line ∈ scrapeWords lines ↔
      (line ∈ lines ∧ ¬line.isEmpty ∧ line.all Char.isUpper ∧ 4 ≤ line.length) := by
  unfold scrapeWords
  rw [List.mem_map]
  constructor
  · rintro ⟨l0, hl0, rfl⟩
    rw [List.mem_filter] at hl0
    obtain ⟨hl1, hlen⟩ := hl0
    rw [List.mem_filter] at hl1
    obtain ⟨hmem, hcond⟩ := hl1
    obtain ⟨hne, hup⟩ := by simpa using hcond
    rw [strTrim_eq_self l0 (by simpa using hup)]
    refine ⟨hmem, by simpa using hne, by simpa using hup, by simpa using hlen⟩
  · rintro ⟨hmem, hne, hup, hlen⟩
    refine ⟨line, ?_, strTrim_eq_self line hup⟩
    rw [List.mem_filter]
    refine ⟨?_, by simpa using hlen⟩
    rw [List.mem_filter]
    exact ⟨hmem, by simp [hne, hup]⟩

/-! ### Concrete instances used by the witnesses -/

/-- The raw puzzle of `main.rs`: center 'C', non-center letters A,L,T,E,F,I. -/
def exampleGame : Game := ⟨'C', ['A', 'L', 'T', 'E', 'F', 'I']⟩

/-- The processed form of `exampleGame`. -/
def exampleGameProcessed : GameProcessed :=
  ⟨'C', (['A', 'L', 'T', 'E', 'F', 'I'] : List Char).toFinset⟩

/-- The dictionary of the spec's concrete scenario: GALACTIC, ACTICAL, FACT. -/
def exampleDict : Dictionary :=
  ⟨[['G', 'A', 'L', 'A', 'C', 'T', 'I', 'C'],
    ['A', 'C', 'T', 'I', 'C', 'A', 'L'],
    ['F', 'A', 'C', 'T']]⟩

/-- The word FACT. -/
def factWord : Word := ['F', 'A', 'C', 'T']

/-- The word GALACTIC. -/
def galacticWord : Word := ['G', 'A', 'L', 'A', 'C', 'T', 'I', 'C']

/-- The word NOON, whose letters repeat. -/
def noonWord : Word := ['N', 'O', 'O', 'N']

/-- A raw puzzle whose center letter also occurs among the non-center
letters, so normalization must fail. -/
def invalidGame : Game := ⟨'C', ['A', 'C']⟩

/-- A one-word dictionary whose single word DOGS does not contain 'Z'. -/
def dogsDict : Dictionary := ⟨[['D', 'O', 'G', 'S']]⟩

/-- A processed puzzle whose center letter 'Z' occurs in no `dogsDict` word. -/
def zGame : GameProcessed := ⟨'Z', (['A', 'B'] : List Char).toFinset⟩

/-- The trivial chunking: a single worker receives the whole list. -/
def singletonSplit : List Word → List (List Word) := fun l => [l]

lemma singletonSplit_perm : ∀ l : List Word, (singletonSplit l).flatten.Perm l := by
  intro l
  simp [singletonSplit]

/-! ### The claims -/

/-- Claim C1: for every dictionary and every processed puzzle, the four
solving strategies return exactly the same result mapping: an entry
(word, points) lies in the BruteForce result iff it lies in the
ParallelBruteForce, LetterMap and ParallelLetterMap results, for every way
the parallel strategies chunk their work. -/
theorem strategy_equivalence (dict : Dictionary) (game : GameProcessed)
    (split₁ split₂ : List Word → List (List Word))
    (h₁ : ∀ l : List Word, (split₁ l).flatten.Perm l)
    (h₂ : ∀ l : List Word, (split₂ l).flatten.Perm l)
    (w : Word) (p : Points) :
    ((w, p) ∈ bruteForceSolve dict game ↔
        (w, p) ∈ parallelBruteForceSolve split₁ dict game) ∧
    ((w, p) ∈ bruteForceSolve dict game ↔ (w, p) ∈ letterMapSolve dict game) ∧
    ((w, p) ∈ bruteForceSolve dict game ↔
        (w, p) ∈ parallelLetterMapSolve split₂ dict game) := by
  refine ⟨?_, ?_, ?_⟩
  · rw [mem_bruteForceSolve, mem_parallelBruteForceSolve split₁ h₁]
  · rw [mem_bruteForceSolve, mem_letterMapSolve]
  · rw [mem_bruteForceSolve, mem_parallelLetterMapSolve split₂ h₂]

/-- Witness for C1 at the spec's concrete dictionary and puzzle, with the
trivial chunking: the entry (FACT, 1) is reported by all four strategies. -/
theorem strategy_equivalence_witness :
    ((factWord, 1) ∈ bruteForceSolve exampleDict exampleGameProcessed ↔
        (factWord, 1) ∈
          parallelBruteForceSolve singletonSplit exampleDict exampleGameProcessed) ∧
    ((factWord, 1) ∈ bruteForceSolve exampleDict exampleGameProcessed ↔
        (factWord, 1) ∈ letterMapSolve exampleDict exampleGameProcessed) ∧
    ((factWord, 1) ∈ bruteForceSolve exampleDict exampleGameProcessed ↔
        (factWord, 1) ∈
          parallelLetterMapSolve singletonSplit exampleDict exampleGameProcessed) :=
  strategy_equivalence exampleDict exampleGameProcessed singletonSplit
    singletonSplit singletonSplit_perm singletonSplit_perm factWord 1

/-- Claim C2: the evaluator accepts a word (returns points) iff the word has
length at least 4, is a dictionary member, uses only the center letter or
non-center letters, and contains the center letter at least once; hence every
word appearing in any strategy's result mapping has length at least 4 and is
a dictionary member. -/
theorem eval_accepts_iff (game : GameProcessed) (dict : Dictionary) (w : Word)
    (split₁ split₂ : List Word → List (List Word))
    (h₁ : ∀ l : List Word, (split₁ l).flatten.Perm l)
    (h₂ : ∀ l : List Word, (split₂ l).flatten.Perm l) :
    ((∃ p, eval_points game dict w = .ok p) ↔
      (4 ≤ w.length ∧ w ∈ dict.words ∧
        (∀ c ∈ w, c = game.center_letter ∨ c ∈ game.non_center_letters) ∧
        game.center_letter ∈ w)) ∧
    (∀ p, ((w, p) ∈ bruteForceSolve dict game ∨
        (w, p) ∈ parallelBruteForceSolve split₁ dict game ∨
        (w, p) ∈ letterMapSolve dict game ∨
        (w, p) ∈ parallelLetterMapSolve split₂ dict game) →
      (4 ≤ w.length ∧ w ∈ dict.words)) := by
  constructor
  · constructor
    · rintro ⟨p, hok⟩
      obtain ⟨ha, hb, hc, hd, -⟩ := (eval_points_ok_iff game dict w p).mp hok
      exact ⟨ha, hb, hc, hd⟩
    · rintro ⟨ha, hb, hc, hd⟩
      exact ⟨_, (eval_points_ok_iff game dict w _).mpr ⟨ha, hb, hc, hd, rfl⟩⟩
  · intro p hp
    have hmem : w ∈ dict.words ∧ eval_points game dict w = .ok p := by
      rcases hp with h | h | h | h
      · exact (mem_bruteForceSolve dict game w p).mp h
      · exact (mem_parallelBruteForceSolve split₁ h₁ dict game w p).mp h
      · exact (mem_letterMapSolve dict game w p).mp h
      · exact (mem_parallelLetterMapSolve split₂ h₂ dict game w p).mp h
    obtain ⟨hw, hok⟩ := hmem
    obtain ⟨ha, -, -, -, -⟩ := (eval_points_ok_iff game dict w p).mp hok
    exact ⟨ha, hw⟩

/-- Witness for C2: FACT appears in the brute-force result for the concrete
scenario, so it has length at least 4 and is a dictionary member. -/
theorem eval_accepts_iff_witness :
    4 ≤ factWord.length ∧ factWord ∈ exampleDict.words :=
  (eval_accepts_iff exampleGameProcessed exampleDict factWord singletonSplit
      singletonSplit singletonSplit_perm singletonSplit_perm).2 1
    (Or.inl (by decide))

/-- Claim C3: an accepted word scores exactly
1 + (length − 4) + (7 if pangram else 0), the pangram test comparing the
word's distinct letters with letter_count; in particular a non-pangram word
of length exactly 4 scores exactly 1. -/
theorem points_formula (game : GameProcessed) (dict : Dictionary) (w : Word)
    (p : Points) (h : eval_points game dict w = .ok p) :
    (p = 1 + (w.length - 4) +
        (if game.letter_count = w.toFinset.card then 7 else 0)) ∧
    (w.length = 4 → game.letter_count ≠ w.toFinset.card → p = 1) := by
  obtain ⟨-, -, -, -, hp⟩ := (eval_points_ok_iff game dict w p).mp h
  refine ⟨hp, fun h4 hnp => ?_⟩
  rw [hp, if_neg hnp, h4]

/-- Witness for C3: FACT is accepted with 1 point in the concrete scenario
and satisfies the formula. -/
theorem points_formula_witness :
    ((1 : Points) = 1 + (factWord.length - 4) +
        (if exampleGameProcessed.letter_count = factWord.toFinset.card then 7 else 0)) ∧
    (factWord.length = 4 →
      exampleGameProcessed.letter_count ≠ factWord.toFinset.card → (1 : Points) = 1) :=
  points_formula exampleGameProcessed exampleDict factWord 1 rfl

/-- Claim C4: an accepted word receives the +7 pangram bonus iff the number of
distinct (necessarily permitted) letters it uses equals letter_count; with
fewer distinct letters the bonus is never granted.  The first conjunct
records that every letter of an accepted word is permitted, so its distinct
letters are exactly the distinct permitted letters it uses. -/
theorem pangram_bonus (game : GameProcessed) (dict : Dictionary) (w : Word)
    (p : Points) (h : eval_points game dict w = .ok p) :
    (∀ c ∈ w, c = game.center_letter ∨ c ∈ game.non_center_letters) ∧
    (p = 1 + (w.length - 4) + 7 ↔ w.toFinset.card = game.letter_count) ∧
    (w.toFinset.card ≠ game.letter_count → p = 1 + (w.length - 4)) := by
  obtain ⟨-, -, hall, -, hp⟩ := (eval_points_ok_iff game dict w p).mp h
  refine ⟨hall, ?_, fun hne => ?_⟩
  · by_cases hpan : game.letter_count = w.toFinset.card
    · rw [if_pos hpan] at hp
      exact iff_of_true hp hpan.symm
    · rw [if_neg hpan] at hp
      refine iff_of_false ?_ (fun he => hpan he.symm)
      rw [hp]
      intro habs
      rw [Nat.add_zero] at habs
      simp at habs
  · rw [if_neg (fun he => hne he.symm)] at hp
    rw [hp]
    exact Nat.add_zero _

/-- Witness for C4: FACT uses 4 distinct letters of the 7 required, so it is
not scored as a pangram. -/
theorem pangram_bonus_witness :
    ((1 : Points) = 1 + (factWord.length - 4) + 7 ↔
        factWord.toFinset.card = exampleGameProcessed.letter_count) ∧
    (factWord.toFinset.card ≠ exampleGameProcessed.letter_count →
        (1 : Points) = 1 + (factWord.length - 4)) :=
  (pangram_bonus exampleGameProcessed exampleDict factWord 1 rfl).2

/-- Claim C5: a rejected word's reason is the first failing rule in the order
TooShort, UnknownWord, DisallowedLetter, MissingCenterLetter; the letter
reported by DisallowedLetter is the first disallowed letter in word order
(the result of find?); and because MissingCenterLetter additionally requires
every letter to be permitted, a word with a disallowed letter and no center
letter is reported as DisallowedLetter. -/
theorem rejection_reason (game : GameProcessed) (dict : Dictionary) (w : Word) :
    (eval_points game dict w = .error .TooShort ↔ w.length < 4) ∧
    (eval_points game dict w = .error .UnknownWord ↔
      (4 ≤ w.length ∧ w ∉ dict.words)) ∧
    (∀ c, eval_points game dict w = .error (.DisallowedLetter c) ↔
      (4 ≤ w.length ∧ w ∈ dict.words ∧
        w.find? (disallowedLetter game) = some c)) ∧
    (eval_points game dict w = .error .MissingCenterLetter ↔
      (4 ≤ w.length ∧ w ∈ dict.words ∧
        (∀ c ∈ w, c = game.center_letter ∨ c ∈ game.non_center_letters) ∧
        game.center_letter ∉ w)) :=
  ⟨eval_TooShort_iff game dict w, eval_UnknownWord_iff game dict w,
    fun c => eval_DisallowedLetter_iff game dict w c,
    eval_MissingCenterLetter_iff game dict w⟩

/-- Witness for C5: GALACTIC is rejected with DisallowedLetter 'G', its first
letter being the first disallowed one. -/
theorem rejection_reason_witness :
    eval_points exampleGameProcessed exampleDict galacticWord =
      .error (.DisallowedLetter 'G') :=
  ((rejection_reason exampleGameProcessed exampleDict galacticWord).2.2.1 'G').mpr
    (by decide)

/-- Claim C6: normalization fails with the InvalidPuzzle error iff the center
letter occurs among the non-center letters; on failure GameSolver.solve
propagates exactly that error whatever the strategy; on success the processed
puzzle holds the non-center letters as a set that excludes the center
letter. -/
theorem normalization_spec (g : Game) :
    ((∃ e, GameProcessed.tryFrom g = .error e) ↔
      g.center_letter ∈ g.non_center_letters) ∧
    (∀ gp, GameProcessed.tryFrom g = .ok gp →
      (gp.center_letter = g.center_letter ∧
        gp.non_center_letters = g.non_center_letters.toFinset ∧
        gp.center_letter ∉ gp.non_center_letters)) ∧
    (∀ e, GameProcessed.tryFrom g = .error e →
      ∀ strategy : GameProcessed → List (Word × Points),
        gameSolverSolve strategy g = .error e) := by
  refine ⟨?_, ?_, ?_⟩
  · by_cases hmem : g.center_letter ∈ g.non_center_letters
    · exact iff_of_true ⟨_, tryFrom_eq_error g hmem⟩ hmem
    · refine iff_of_false ?_ hmem
      rintro ⟨e, he⟩
      rw [tryFrom_eq_ok g hmem] at he
      exact absurd he (by simp)
  · intro gp hgp
    by_cases hmem : g.center_letter ∈ g.non_center_letters
    · rw [tryFrom_eq_error g hmem] at hgp
      exact absurd hgp (by simp)
    · rw [tryFrom_eq_ok g hmem] at hgp
      obtain rfl := (Except.ok.inj hgp).symm
      refine ⟨rfl, rfl, ?_⟩
      simpa using hmem
  · intro e he strategy
    unfold gameSolverSolve
    rw [he]

/-- Witness for C6: the raw puzzle with center 'C' and non-center letters
A, C fails normalization and the solver propagates the error. -/
theorem normalization_spec_witness :
    gameSolverSolve (bruteForceSolve exampleDict) invalidGame =
      .error ("center letter may not be part of non center letters") :=
  (normalization_spec invalidGame).2.2
    ("center letter may not be part of non center letters") rfl
    (bruteForceSolve exampleDict)

/-- Claim C7 as stated is false: the ParallelLetterMap index does not hold
each word at most once per letter bucket.  On the one-word dictionary [NOON],
the bucket of 'O' contains NOON twice, once per occurrence of 'O'. -/
theorem letter_index_counterexample :
    ¬(∀ (words : List Word) (l : Letter) (w : Word),
        ((parallelLetterMapBuild words l).getD []).count w ≤ 1) := by
  intro h
  exact absurd (h [noonWord] 'O' noonWord) (by decide)

lemma count_le_one_of_nodup (l : List Word) (hnd : l.Nodup) (w : Word) :
    l.count w ≤ 1 := by
  induction l with
  | nil => simp
  | cons a as ih =>
    rw [List.nodup_cons] at hnd
    rw [List.count_cons]
    by_cases hw : w = a
    · subst hw
      rw [List.count_eq_zero.mpr hnd.1, beq_self_eq_true]
      simp
    · have h0 : (a == w) = false := by
        simp only [beq_eq_false_iff_ne, Ne]
        exact fun h => hw h.symm
      simp only [h0]
      simp
      exact ih hnd.2

/-- Claim C7 amended: both indexes bucket exactly the dictionary words
containing the letter; the LetterMap bucket is duplicate-free (so each word
is evaluated once per solve), while the ParallelLetterMap bucket holds each
word once per occurrence of the letter in it (so a word is evaluated once per
occurrence of the center letter in it). -/
theorem letter_index_spec (words : List Word) (l : Letter) (w : Word) :
    (w ∈ ((letterMapBuild words l).getD []) ↔ (w ∈ words ∧ l ∈ w)) ∧
    (w ∈ ((parallelLetterMapBuild words l).getD []) ↔ (w ∈ words ∧ l ∈ w)) ∧
    ((letterMapBuild words l).getD []).count w ≤ 1 ∧
    ((parallelLetterMapBuild words l).getD []).count w =
      words.count w * w.count l := by
  refine ⟨mem_letterMapBuild words l w, mem_parallelLetterMapBuild words l w,
    ?_, count_parallelLetterMapBuild words l w⟩
  exact count_le_one_of_nodup _ (nodup_letterMapBuild words l) w

/-- Claim C8: when the puzzle's center letter occurs in no dictionary word,
the bucket is absent and both indexed strategies return the empty result
mapping. -/
theorem empty_bucket_empty_result (dict : Dictionary) (game : GameProcessed)
    (split : List Word → List (List Word))
    (h : ∀ w ∈ dict.words, game.center_letter ∉ w) :
    letterMapSolve dict game = [] ∧
      parallelLetterMapSolve split dict game = [] := by
  constructor
  · unfold letterMapSolve
    rw [letterMapBuild_apply_of_not_mem dict.words game.center_letter h]
  · unfold parallelLetterMapSolve
    rw [parallelLetterMapBuild_apply_of_not_mem dict.words game.center_letter h]

/-- Witness for C8: the center letter 'Z' occurs in no word of the one-word
dictionary [DOGS], and both indexed strategies return the empty mapping. -/
theorem empty_bucket_empty_result_witness :
    letterMapSolve dogsDict zGame = [] ∧
      parallelLetterMapSolve singletonSplit dogsDict zGame = [] :=
  empty_bucket_empty_result dogsDict zGame singletonSplit (by decide)

/-- Claim C9: the minimum length 4 is inclusive and applied consistently: the
scrape line filter keeps exactly the non-empty all-uppercase lines of length
at least 4 (length exactly 4 included), and the evaluator rejects TooShort
exactly when the length is strictly below 4, so a length-4 word is rejected
as TooShort by neither site. -/
theorem min_length_consistent :
    (∀ (lines : List (List Char)) (line : List Char),
      line ∈ scrapeWords lines → 4 ≤ line.length) ∧
    (∀ (lines : List (List Char)) (line : List Char),
      line ∈ lines → line.isEmpty = false → line.all Char.isUpper = true →
      line.length = 4 → line ∈ scrapeWords lines) ∧
    (∀ (game : GameProcessed) (dict : Dictionary) (w : Word),
      eval_points game dict w = .error .TooShort ↔ w.length < 4) ∧
    (∀ (game : GameProcessed) (dict : Dictionary) (w : Word),
      w.length = 4 → eval_points game dict w ≠ .error .TooShort) := by
  refine ⟨?_, ?_, ?_, ?_⟩
  · intro lines line h
    exact ((mem_scrapeWords_iff lines line).mp h).2.2.2
  · intro lines line hmem hne hup hlen
    refine (mem_scrapeWords_iff lines line).mpr ⟨hmem, by simp [hne], hup, by omega⟩
  · intro game dict w
    exact eval_TooShort_iff game dict w
  · intro game dict w h4 habs
    have := (eval_TooShort_iff game dict w).mp habs
    omega

/-- Witness for C9: the length-4 line FACT is kept by the scrape filter. -/
theorem min_length_consistent_witness :
    factWord ∈ scrapeWords [factWord] :=
  min_length_consistent.2.1 [factWord] factWord (by decide) (by decide)
    (by decide) (by decide)

/-- Claim C10: evaluation is total by construction, and the usize subtraction
in the scoring expression cannot underflow: the scoring expression is reached
only for accepted words, which have length at least 4, so the natural-number
subtraction length − 4 is exact. -/
theorem no_underflow (game : GameProcessed) (dict : Dictionary) (w : Word)
    (p : Points) (h : eval_points game dict w = .ok p) :
    4 ≤ w.length ∧ ((w.length - 4) + 4 = w.length) := by
  obtain ⟨h4, -, -, -, -⟩ := (eval_points_ok_iff game dict w p).mp h
  exact ⟨h4, by omega⟩

/-- Witness for C10 at the accepted word FACT. -/
theorem no_underflow_witness :
    4 ≤ factWord.length ∧ ((factWord.length - 4) + 4 = factWord.length) :=
  no_underflow exampleGameProcessed exampleDict factWord 1 rfl
